import Mathlib

/-
  Verification of the contextro repository's ignore-pattern matching engine
  and directory-walk concatenator.

  The two Python classes (ContextBuilder in context_builder.py, Contextro in
  contextro.py) are embedded shallowly: Python strings become lists of
  characters, Python fnmatch.fnmatch becomes the executable globMatch below,
  the per-pattern loop of each _should_ignore becomes an explicit
  first-decision fold, and os.walk plus the per-file try/except body of
  build_context becomes a structural recursion over a filesystem tree.
-/

/-- Python strings are sequences of code points; we embed them as `List Char`. -/
abbrev Str := List Char

/-- Convenience coercion of a Lean string literal to the embedding type. -/
def strL (s : String) : Str := s.data

/- ## The glob matcher (Python fnmatch.fnmatch on POSIX) -/

/-- Scan a character-class body for the closing bracket, returning the class
    members and the remainder of the pattern, or `none` when the class is
    unterminated (in which case fnmatch treats the opening bracket literally). -/
def scanClass : Str → Option (Str × Str)
  | [] => none
  | c :: rest =>
    if c = ']' then some ([], rest)
    else (scanClass rest).map (fun p => (c :: p.1, p.2))

/-- A closing bracket immediately after the opening bracket (or after the
    negation mark) is a literal class member, as in fnmatch.translate. -/
def scanStart : Str → Option (Str × Str)
  | [] => none
  | c :: r =>
    if c = ']' then (scanClass r).map (fun p => (']' :: p.1, p.2))
    else scanClass (c :: r)

/-- Parse the part of a pattern following an opening bracket: optional
    negation mark, then members up to the closing bracket. -/
def splitBracket : Str → Option (Bool × Str × Str)
  | [] => none
  | c :: rest =>
    if c = '!' then (scanStart rest).map (fun p => (true, p.1, p.2))
    else (scanStart (c :: rest)).map (fun p => (false, p.1, p.2))

theorem scanClass_length {l it r : Str} (h : scanClass l = some (it, r)) :
    r.length < l.length := by
  induction l generalizing it r with
  | nil => simp [scanClass] at h
  | cons c rest ih =>
    rw [scanClass] at h
    split at h
    · simp only [Option.some.injEq, Prod.mk.injEq] at h
      obtain ⟨h1, h2⟩ := h
      subst h2
      simp
    · simp only [Option.map_eq_some'] at h
      obtain ⟨⟨it', r'⟩, hrec, heq⟩ := h
      have := ih hrec
      simp only [Prod.mk.injEq] at heq
      obtain ⟨h1, h2⟩ := heq
      subst h2
      simpa using Nat.lt_succ_of_lt this

theorem scanStart_length {l it r : Str} (h : scanStart l = some (it, r)) :
    r.length < l.length := by
  match l with
  | [] => simp [scanStart] at h
  | c :: rest =>
    rw [scanStart] at h
    split at h
    · simp only [Option.map_eq_some'] at h
      obtain ⟨⟨it', r'⟩, hrec, heq⟩ := h
      have := scanClass_length hrec
      simp only [Prod.mk.injEq] at heq
      obtain ⟨h1, h2⟩ := heq
      subst h2
      simpa using Nat.lt_succ_of_lt this
    · exact scanClass_length h

theorem splitBracket_length {l : Str} {neg : Bool} {it r : Str}
    (h : splitBracket l = some (neg, it, r)) : r.length < l.length := by
  match l with
  | [] => simp [splitBracket] at h
  | c :: rest =>
    rw [splitBracket] at h
    split at h
    · simp only [Option.map_eq_some'] at h
      obtain ⟨⟨it', r'⟩, hrec, heq⟩ := h
      have := scanStart_length hrec
      simp only [Prod.mk.injEq] at heq
      obtain ⟨_, h1, h2⟩ := heq
      subst h2
      simpa using Nat.lt_succ_of_lt this
    · simp only [Option.map_eq_some'] at h
      obtain ⟨⟨it', r'⟩, hrec, heq⟩ := h
      have := scanStart_length hrec
      simp only [Prod.mk.injEq] at heq
      obtain ⟨_, h1, h2⟩ := heq
      subst h2
      exact this

/-- Does a character match the (negation-stripped) class members, honoring
    lo-hi ranges (a reversed range is empty, as in current Python). -/
def classItemsMatch : Str → Char → Bool
  | [], _ => false
  | a :: '-' :: b :: rest, c =>
    (a.val ≤ c.val && c.val ≤ b.val) || classItemsMatch rest c
  | a :: rest, c => (a == c) || classItemsMatch rest c

/-- Shell-glob matching as implemented by Python fnmatch.fnmatch on POSIX:
    a star matches any run of characters (including separators and newlines),
    a question mark matches exactly one character, a bracket class matches one
    character from its members with optional negation, an unterminated opening
    bracket is a literal, and the whole subject string must be consumed. -/
def globMatch : Str → Str → Bool
  | [], s => s.isEmpty
  | c :: p, s =>
    if c = '*' then
      globMatch p s || (match s with
        | [] => false
        | _ :: s' => globMatch (c :: p) s')
    else if c = '?' then
      match s with
      | [] => false
      | _ :: s' => globMatch p s'
    else if c = '[' then
      match hsb : splitBracket p with
      | some (neg, items, rest) =>
        (match s with
         | [] => false
         | d :: s' =>
           (if neg then !(classItemsMatch items d) else classItemsMatch items d)
             && globMatch rest s')
      | none =>
        match s with
        | [] => false
        | d :: s' => (d == '[') && globMatch p s'
    else
      match s with
      | [] => false
      | d :: s' => (d == c) && globMatch p s'
  termination_by p s => p.length + s.length
  decreasing_by
    all_goals simp
    all_goals try omega
    all_goals (have h9 := splitBracket_length hsb; omega)

/-- Python call shape: fnmatch(name, pattern). -/
def fnmatchL (name pat : Str) : Bool := globMatch pat name

theorem globMatch_nil (s : Str) : globMatch [] s = s.isEmpty := by
  rw [globMatch]

theorem globMatch_star_nil (p : Str) : globMatch ('*' :: p) [] = globMatch p [] := by
  rw [globMatch]
  simp

theorem globMatch_star_cons (p : Str) (c : Char) (s : Str) :
    globMatch ('*' :: p) (c :: s) = (globMatch p (c :: s) || globMatch ('*' :: p) s) := by
  conv_lhs => rw [globMatch]
  simp

theorem globMatch_lit_cons {c : Char} (hc1 : c ≠ '*') (hc2 : c ≠ '?') (hc3 : c ≠ '[')
    (p : Str) (d : Char) (s : Str) :
    globMatch (c :: p) (d :: s) = ((d == c) && globMatch p s) := by
  conv_lhs => rw [globMatch]
  simp [hc1, hc2, hc3]

/-- A star absorbs any run in front of an already matching suffix. -/
theorem globMatch_star_absorb (p s t : Str) (h : globMatch p s = true) :
    globMatch ('*' :: p) (t ++ s) = true := by
  induction t with
  | nil =>
    match s with
    | [] => rw [List.nil_append, globMatch_star_nil]; exact h
    | c :: s' => rw [List.nil_append, globMatch_star_cons]; simp [h]
  | cons c t' ih =>
    rw [List.cons_append, globMatch_star_cons]
    simp [ih]

theorem globMatch_slash_cons (p s : Str) :
    globMatch ('/' :: p) ('/' :: s) = globMatch p s := by
  rw [globMatch_lit_cons (by decide) (by decide) (by decide)]
  simp

/- ## Python string helpers used by the two classes -/

/-- Python str.startswith with the negation marker. -/
def startsBang : Str → Bool
  | '!' :: _ => true
  | _ => false

/-- Python str.startswith with the comment marker. -/
def startsHash : Str → Bool
  | '#' :: _ => true
  | _ => false

/-- Python str.endswith with the directory marker. -/
def endsSlash (l : Str) : Bool :=
  match l.getLast? with
  | some '/' => true
  | _ => false

/-- The whitespace characters stripped by Python str.strip (ASCII range). -/
def isPySpace (c : Char) : Bool :=
  c = ' ' || c = '\t' || c = '\n' || c = '\x0d' || c = '\x0b' || c = '\x0c'

/-- Python str.strip: drop whitespace from both ends. -/
def pyStrip (l : Str) : Str :=
  ((l.dropWhile isPySpace).reverse.dropWhile isPySpace).reverse

/-- Join relative-path components with forward slashes, as os.path.join and
    os.path.relpath produce under the walk (all components non-empty). -/
def joinComps : List Str → Str
  | [] => []
  | [x] => x
  | x :: xs => x ++ '/' :: joinComps xs

theorem joinComps_append_last (pre : List Str) (name : Str) (hpre : pre ≠ []) :
    joinComps (pre ++ [name]) = joinComps pre ++ '/' :: name := by
  induction pre with
  | nil => simp at hpre
  | cons x xs ih =>
    match xs with
    | [] => rfl
    | y :: ys =>
      have h2 : (y :: ys : List Str) ≠ [] := by simp
      have hih := ih h2
      rw [List.cons_append] at hih
      calc joinComps (x :: y :: ys ++ [name])
          = x ++ '/' :: joinComps (y :: (ys ++ [name])) := rfl
        _ = x ++ '/' :: (joinComps (y :: ys) ++ '/' :: name) := by rw [hih]
        _ = joinComps (x :: y :: ys) ++ '/' :: name := by
              simp [joinComps]

/- ## Pattern loading (identical in both classes) -/

/-- Embedding of _load_ignore_patterns applied to the lines of an existing
    ignore file: strip each line, skip blanks and comment lines, keep the
    rest in file order. -/
def loadIgnorePatterns (fileLines : List Str) : List Str :=
  fileLines.filterMap (fun line =>
    let line := pyStrip line
    if line.isEmpty || startsHash line then none else some line)

/-- The built-in glob appended by Contextro.__init__ so generated output
    artifacts are matched. -/
def builtinOutputGlob : Str := strL "contextro_context_*.txt"

/-- The result of _load_ignore_patterns: empty when the ignore file does
    not exist, otherwise the parsed lines. -/
def loadedPatterns (fileLines : Option (List Str)) : List Str :=
  match fileLines with
  | none => []
  | some ls => loadIgnorePatterns ls

/-- The pattern list held by a Contextro instance: the loaded user patterns
    with the built-in output glob appended by __init__. -/
def contexroPatterns (fileLines : Option (List Str)) : List Str :=
  loadedPatterns fileLines ++ [builtinOutputGlob]

/- ## The richer matcher: Contextro._should_ignore -/

/-- The rel_path_with_slash value computed by Contextro._should_ignore. -/
def relSlashOf (relPath : Str) (isDir : Bool) : Str :=
  if isDir then relPath ++ ['/'] else relPath

/-- The three pattern variations built inside the loop of
    Contextro._should_ignore, from the raw pattern text. -/
def patternVariations (p : Str) : List Str :=
  [p, strL "**/" ++ p, strL "**/" ++ p ++ strL "/**"]

/-- One iteration of the pattern loop of Contextro._should_ignore: `some b`
    when the iteration returns b, `none` when it falls through to the next
    pattern. The negation branch in the source iterates over the variations
    but tests fnmatch(rel_path, clean_pattern), never using the loop
    variable; the embedding keeps that loop shape. -/
def patternDecision (p relPath relSlash : Str) : Option Bool :=
  let variations := patternVariations p
  if startsBang p then
    let clean := p.drop 1
    if variations.any (fun _ => fnmatchL relPath clean) then some false else none
  else
    if variations.any (fun var =>
        if endsSlash p then fnmatchL relSlash var else fnmatchL relPath var)
    then some true else none

/-- The pattern loop of Contextro._should_ignore with its early returns. -/
def ctxIgnoreLoop (relPath relSlash : Str) : List Str → Bool
  | [] => false
  | p :: ps =>
    match patternDecision p relPath relSlash with
    | some b => b
    | none => ctxIgnoreLoop relPath relSlash ps

/-- Embedding of Contextro._should_ignore on the already root-relative path
    (the resolve/relative_to step is modelled separately for the
    outside-root case). -/
def ctxShouldIgnore (patterns : List Str) (relPath : Str) (isDir : Bool) : Bool :=
  ctxIgnoreLoop relPath (relSlashOf relPath isDir) patterns

/- ## The simpler matcher: ContextBuilder._should_ignore -/

/-- One iteration of the pattern loop of ContextBuilder._should_ignore. -/
def cbPatternDecision (p relPath : Str) : Option Bool :=
  if startsBang p then
    if fnmatchL relPath (p.drop 1) then some false else none
  else if endsSlash p then
    if fnmatchL (relPath ++ ['/']) p then some true else none
  else if fnmatchL relPath p then some true else none

def cbIgnoreLoop (relPath : Str) : List Str → Bool
  | [] => false
  | p :: ps =>
    match cbPatternDecision p relPath with
    | some b => b
    | none => cbIgnoreLoop relPath ps

/-- Embedding of ContextBuilder._should_ignore on the root-relative path. -/
def cbShouldIgnore (patterns : List Str) (relPath : Str) : Bool :=
  cbIgnoreLoop relPath patterns

/- ## The resolve/relative_to step shared by both matchers -/

/-- Path.relative_to on resolved absolute paths given as component lists:
    defined exactly when the root's components lead the path's. -/
def relativeTo (root path : List Str) : Option (List Str) :=
  if path.take root.length = root then some (path.drop root.length) else none

/-- Contextro._should_ignore including the relative_to step, which raises
    ValueError for a path outside the root. -/
def ctxShouldIgnoreAbs (patterns : List Str) (root path : List Str)
    (isDir : Bool) : Except String Bool :=
  match relativeTo root path with
  | none => Except.error "ValueError: path is not relative to the root"
  | some rel => Except.ok (ctxShouldIgnore patterns (joinComps rel) isDir)

/-- ContextBuilder._should_ignore including the relative_to step. -/
def cbShouldIgnoreAbs (patterns : List Str) (root path : List Str) :
    Except String Bool :=
  match relativeTo root path with
  | none => Except.error "ValueError: path is not relative to the root"
  | some rel => Except.ok (cbShouldIgnore patterns (joinComps rel))

/- ## The filesystem and walk model for build_context -/

/-- A filesystem entry under the processed root: a file with its raw bytes
    and whether the operating system lets this process open it, or a
    directory with its children in listing order. -/
inductive Entry where
  | file (name : Str) (readable : Bool) (content : List Nat)
  | dir (name : Str) (children : List Entry)
deriving Repr

/-- Embedding of _is_binary (identical in both classes): an unreadable file
    raises on open and is reported binary; otherwise a null byte within the
    first 1024 bytes means binary. -/
def isBinary (readable : Bool) (content : List Nat) : Bool :=
  if readable then (content.take 1024).contains 0 else true

/-- A UTF-8 continuation byte. -/
def isCont (b : Nat) : Bool := 0x80 ≤ b && b ≤ 0xBF

/-- Strict UTF-8 decoding as performed by Python text-mode reads with
    encoding utf-8: rejects overlong forms, surrogates and code points
    beyond 0x10FFFF; `none` models UnicodeDecodeError. -/
def decodeUtf8 : List Nat → Option (List Char)
  | [] => some []
  | b :: bs =>
    if b ≤ 0x7F then
      (decodeUtf8 bs).map (fun cs => Char.ofNat b :: cs)
    else if 0xC2 ≤ b && b ≤ 0xDF then
      match bs with
      | b1 :: bs' =>
        if isCont b1 then
          (decodeUtf8 bs').map (fun cs =>
            Char.ofNat ((b - 0xC0) * 0x40 + (b1 - 0x80)) :: cs)
        else none
      | [] => none
    else if 0xE0 ≤ b && b ≤ 0xEF then
      match bs with
      | b1 :: b2 :: bs' =>
        if (if b = 0xE0 then 0xA0 ≤ b1 && b1 ≤ 0xBF
            else if b = 0xED then 0x80 ≤ b1 && b1 ≤ 0x9F
            else isCont b1) && isCont b2 then
          (decodeUtf8 bs').map (fun cs =>
            Char.ofNat ((b - 0xE0) * 0x1000 + (b1 - 0x80) * 0x40 + (b2 - 0x80)) :: cs)
        else none
      | _ => none
    else if 0xF0 ≤ b && b ≤ 0xF4 then
      match bs with
      | b1 :: b2 :: b3 :: bs' =>
        if (if b = 0xF0 then 0x90 ≤ b1 && b1 ≤ 0xBF
            else if b = 0xF4 then 0x80 ≤ b1 && b1 ≤ 0x8F
            else isCont b1) && isCont b2 && isCont b3 then
          (decodeUtf8 bs').map (fun cs =>
            Char.ofNat ((b - 0xF0) * 0x40000 + (b1 - 0x80) * 0x1000
              + (b2 - 0x80) * 0x40 + (b3 - 0x80)) :: cs)
        else none
      | _ => none
    else none

/-- Universal-newline translation applied by Python text-mode reads. -/
def translateNewlines : Str → Str
  | [] => []
  | '\r' :: '\n' :: rest => '\n' :: translateNewlines rest
  | '\r' :: rest => '\n' :: translateNewlines rest
  | c :: rest => c :: translateNewlines rest

/-- The text delivered by open(path, r, encoding utf-8).read(), or `none`
    when decoding raises. -/
def decodeText (content : List Nat) : Option Str :=
  (decodeUtf8 content).map translateNewlines

/-- The two Python runtime values compared by the files filter in
    build_context: plain strings and pathlib.Path objects. -/
inductive PyVal where
  | pystr (s : Str)
  | pypath (s : Str)
deriving Repr

/-- Python equality between those values: strings compare by text, paths
    compare by text, and a string never equals a path (both __eq__ methods
    return NotImplemented across types, so == falls back to identity). -/
def pyEq : PyVal → PyVal → Bool
  | .pystr a, .pystr b => a == b
  | .pypath a, .pypath b => a == b
  | _, _ => false

/-- One write to the output artifact: the record delimiter header for a
    file (carrying its relative-path components) or decoded file contents. -/
inductive OutEvent where
  | header (comps : List Str)
  | content (text : Str)
deriving Repr

/-- One console log line emitted by the per-file except branch. -/
inductive LogEvent where
  | errorProcessing (comps : List Str)
deriving Repr

/-- The observable outcome of a walk: output writes and log lines, in order. -/
abbrev WalkOut := List OutEvent × List LogEvent

def wappend (a b : WalkOut) : WalkOut := (a.1 ++ b.1, a.2 ++ b.2)

/-- The rendered text of one output write (seven equal signs around the
    relative path in the header). -/
def renderEvent : OutEvent → Str
  | .header comps => strL "\n=======" ++ joinComps comps ++ strL "=======\n"
  | .content t => t

/-- The full text written to the output artifact. -/
def outputChars (w : List OutEvent) : Str := (w.map renderEvent).flatten

/-- Embedding of the per-file loop body of Contextro.build_context: skip if
    ignored; inside try, skip if binary, write the delimiter header, then
    read and decode the contents; a decode failure is caught after the
    header was already written and logged with the file path. -/
def processFile (patterns : List Str) (rel : List Str) (name : Str)
    (readable : Bool) (content : List Nat) : WalkOut :=
  let comps := rel ++ [name]
  if ctxShouldIgnore patterns (joinComps comps) false then ([], [])
  else if isBinary readable content then ([], [])
  else
    match decodeText content with
    | some text => ([.header comps, .content text], [])
    | none => ([.header comps], [.errorProcessing comps])

/-- The filename filter of build_context followed by the loop body: a name
    is dropped when it equals the output Path object (never, across types)
    or the literal string .contextignore. -/
def fileStep (patterns : List Str) (output : PyVal) (rel : List Str)
    (name : Str) (readable : Bool) (content : List Nat) : WalkOut :=
  if pyEq (.pystr name) output || name == strL ".contextignore" then ([], [])
  else processFile patterns rel name readable content

/-- Embedding of the os.walk loop of build_context over the children of one
    directory. The first component collects the contributions of this
    directory's plain files (processed before descending), the second those
    of its surviving subdirectories; a subdirectory is pruned before
    descending when _should_ignore holds of its path. -/
def walkAux (patterns : List Str) (output : PyVal) (rel : List Str) :
    List Entry → WalkOut × WalkOut
  | [] => (([], []), ([], []))
  | .file n r c :: rest =>
    let p := walkAux patterns output rel rest
    (wappend (fileStep patterns output rel n r c) p.1, p.2)
  | .dir n ch :: rest =>
    let p := walkAux patterns output rel rest
    if ctxShouldIgnore patterns (joinComps (rel ++ [n])) true then p
    else
      let q := walkAux patterns output (rel ++ [n]) ch
      (p.1, wappend (wappend q.1 q.2) p.2)

/-- The walk of one directory: its files first, then its kept subtrees. -/
def ctxWalk (patterns : List Str) (output : PyVal) (rel : List Str)
    (entries : List Entry) : WalkOut :=
  let p := walkAux patterns output rel entries
  wappend p.1 p.2

/-- The traversal phase of Contextro.build_context for a given pattern list
    and generated output filename, over the tree under the root. -/
def buildEvents (patterns : List Str) (outName : Str)
    (entries : List Entry) : WalkOut :=
  ctxWalk patterns (.pypath outName) [] entries

/-- Lookup of a top-level file by name, as self.root_dir / ignore_file. -/
def findTopFile : List Entry → Str → Option (Bool × List Nat)
  | [], _ => none
  | .file n r c :: rest, name =>
    if n == name then some (r, c) else findTopFile rest name
  | .dir _ _ :: rest, name => findTopFile rest name

/-- Split decoded text into lines at newline characters, as iterating a
    Python text file does (terminators are stripped by the loader anyway). -/
def splitNl : Str → List Str
  | [] => [[]]
  | c :: rest =>
    let r := splitNl rest
    if c = '\n' then [] :: r
    else
      match r with
      | [] => [[c]]
      | l :: ls => (c :: l) :: ls

/-- A whole run of the Contextro variant: construct the matcher from the
    configured ignore-file name (reading and decoding that file when it
    exists; a failure there escapes the constructor and aborts the run),
    then walk. The timestamp is abstracted as the stamp argument. -/
def contexroRun (ignoreName : Str) (stamp : Str) (entries : List Entry) :
    Except Unit WalkOut :=
  let outName := strL "contextro_context_" ++ stamp ++ strL ".txt"
  match findTopFile entries ignoreName with
  | none => Except.ok (buildEvents (contexroPatterns none) outName entries)
  | some (r, c) =>
    if r then
      match decodeText c with
      | some text =>
        Except.ok (buildEvents (contexroPatterns (some (splitNl text)))
          outName entries)
      | none => Except.error ()
    else Except.error ()

/- ## Helper lemmas about the matcher loops -/

/-- A pattern starting with the negation marker decides exactly by matching
    the stripped pattern against rel_path, because the loop over the three
    variations never uses the loop variable. -/
theorem patternDecision_neg (q relPath relSlash : Str) (h : startsBang q = true) :
    patternDecision q relPath relSlash =
      (if fnmatchL relPath (q.drop 1) then some false else none) := by
  simp [patternDecision, patternVariations, h]

/-- A non-negated pattern decides by matching one of its three variations,
    against rel_path_with_slash for directory patterns and rel_path else. -/
theorem patternDecision_nonneg (q relPath relSlash : Str) (h : startsBang q = false) :
    patternDecision q relPath relSlash =
      (if (patternVariations q).any (fun var =>
            if endsSlash q then fnmatchL relSlash var else fnmatchL relPath var)
       then some true else none) := by
  simp [patternDecision, h]

/-- A non-negated pattern can only decide ignore, never keep. -/
theorem patternDecision_nonneg_some (q relPath relSlash : Str)
    (h : startsBang q = false) :
    ∀ b, patternDecision q relPath relSlash = some b → b = true := by
  intro b hb
  rw [patternDecision_nonneg q relPath relSlash h] at hb
  by_cases hc : ((patternVariations q).any fun var =>
      if endsSlash q = true then fnmatchL relSlash var else fnmatchL relPath var) = true
  · rw [if_pos hc] at hb
    injection hb with h2
    exact h2.symm
  · rw [if_neg hc] at hb
    cases hb

/-- Patterns that produce no decision for a path are skipped by the loop. -/
theorem ctxIgnoreLoop_append_silent (relPath relSlash : Str) (ps1 rest : List Str)
    (h : ∀ q ∈ ps1, patternDecision q relPath relSlash = none) :
    ctxIgnoreLoop relPath relSlash (ps1 ++ rest) =
      ctxIgnoreLoop relPath relSlash rest := by
  induction ps1 with
  | nil => rfl
  | cons q qs ih =>
    rw [List.cons_append, ctxIgnoreLoop, h q (List.mem_cons_self q qs)]
    exact ih (fun q' hq' => h q' (List.mem_cons_of_mem q hq'))

/-- If none of the leading patterns is a negation matching the path, and the
    remaining loop already answers ignore, the whole loop answers ignore. -/
theorem ctxIgnoreLoop_no_matching_neg (relPath relSlash : Str) (L rest : List Str)
    (hneg : ∀ q ∈ L, startsBang q = true → fnmatchL relPath (q.drop 1) = false)
    (hrest : ctxIgnoreLoop relPath relSlash rest = true) :
    ctxIgnoreLoop relPath relSlash (L ++ rest) = true := by
  induction L with
  | nil => simpa
  | cons q qs ih =>
    rw [List.cons_append, ctxIgnoreLoop]
    have ihq := ih (fun q' hq' => hneg q' (List.mem_cons_of_mem q hq'))
    cases hd : patternDecision q relPath relSlash with
    | none => simpa [hd] using ihq
    | some b =>
      cases hq : startsBang q with
      | true =>
        rw [patternDecision_neg q relPath relSlash hq,
          hneg q (List.mem_cons_self q qs) hq] at hd
        simp at hd
      | false =>
        have hb := patternDecision_nonneg_some q relPath relSlash hq b hd
        exact hb

/- ## C1 -/

/-- C1: the match operation evaluates patterns strictly in file order; the
    first pattern that produces a match decides the result (negation gives
    keep, otherwise ignore) and no later pattern is consulted, the later
    patterns ps2 being arbitrary; in particular an ignore file containing
    star-dot-log before bang-x-dot-log yields ignore for x.log because the
    broad non-negated pattern is checked first. -/
theorem c1_first_match_wins (ps1 : List Str) (p : Str) (ps2 : List Str)
    (relPath : Str) (isDir : Bool) (b : Bool)
    (hsilent : ∀ q ∈ ps1, patternDecision q relPath (relSlashOf relPath isDir) = none)
    (hdec : patternDecision p relPath (relSlashOf relPath isDir) = some b) :
    ctxShouldIgnore (ps1 ++ p :: ps2) relPath isDir = b ∧
    ctxShouldIgnore [strL "*.log", strL "!x.log"] (strL "x.log") false = true := by
  constructor
  · rw [ctxShouldIgnore,
      ctxIgnoreLoop_append_silent relPath (relSlashOf relPath isDir) ps1 (p :: ps2) hsilent,
      ctxIgnoreLoop, hdec]
  · simp [ctxShouldIgnore, ctxIgnoreLoop, patternDecision, patternVariations,
      relSlashOf, startsBang, endsSlash, fnmatchL, strL, globMatch]

/-- Witness for C1: the literal scenario from the spec, obtained from the
    general theorem at the concrete input. -/
theorem c1_witness :
    ctxShouldIgnore [strL "*.log", strL "!x.log"] (strL "x.log") false = true :=
  (c1_first_match_wins [] (strL "*.log") [strL "!x.log"] (strL "x.log") false true
    (by simp)
    (by simp [patternDecision, patternVariations, relSlashOf, startsBang,
          endsSlash, fnmatchL, strL, globMatch])).2

/- ## C2 -/

/-- C2 is wrong about the code: for the negation pattern bang-x-dot-log and
    the relative path sub/x.log, the path does glob-match the expansion
    star-star-slash-x-dot-log of the stripped pattern, so per the claim the
    match operation would return keep; but the source's negation branch only
    ever tests the stripped pattern itself (the loop variable var is unused),
    the negation falls through, and the following pattern star-dot-log
    returns ignore. -/
theorem c2_code_behavior :
    fnmatchL (strL "sub/x.log") (strL "**/x.log") = true ∧
    ctxShouldIgnore [strL "!x.log", strL "*.log"] (strL "sub/x.log") false = true := by
  constructor
  · simp [fnmatchL, strL, globMatch]
  · simp [ctxShouldIgnore, ctxIgnoreLoop, patternDecision, patternVariations,
      relSlashOf, startsBang, endsSlash, fnmatchL, strL, globMatch]

/- ## C5 -/

/-- C5: the binary classifier answers binary exactly when the file cannot be
    opened or a null byte occurs in the first 1024 bytes, and a file
    classified binary contributes no output write and no log line. -/
theorem c5_binary_classification :
    (∀ (r : Bool) (c : List Nat),
      isBinary r c = true ↔ (r = false ∨ (c.take 1024).contains 0 = true)) ∧
    (∀ (patterns : List Str) (rel : List Str) (name : Str) (r : Bool) (c : List Nat),
      isBinary r c = true → processFile patterns rel name r c = ([], [])) := by
  constructor
  · intro r c
    cases r <;> simp [isBinary]
  · intro patterns rel name r c hbin
    simp [processFile, hbin]

/-- Witness for C5: a readable file whose first byte is null is classified
    binary and contributes nothing. -/
theorem c5_witness :
    isBinary true [0, 65] = true ∧
    processFile [] [] (strL "b.bin") true [0, 65] = ([], []) :=
  ⟨by decide, c5_binary_classification.2 [] [] (strL "b.bin") true [0, 65] (by decide)⟩

/- ## C7 -/

/-- C7: a filename string never equals the output Path object under Python
    equality, so the output-file part of the files filter keeps every name,
    and the whole filter reduces to the literal dot-contextignore test. -/
theorem c7_filter_excludes_nothing :
    (∀ (f p : Str), pyEq (.pystr f) (.pypath p) = false) ∧
    (∀ (files : List Str) (p : Str),
      files.filter (fun f => !(pyEq (.pystr f) (.pypath p))) = files) ∧
    (∀ (patterns : List Str) (p : Str) (rel : List Str) (name : Str)
       (r : Bool) (c : List Nat),
      fileStep patterns (.pypath p) rel name r c =
        (if name == strL ".contextignore" then ([], [])
         else processFile patterns rel name r c)) := by
  refine ⟨fun f p => rfl, fun files p => ?_, fun patterns p rel name r c => rfl⟩
  simp [pyEq]

/- ## C9 -/

/-- C9: a path outside the root (its components do not extend the root's)
    makes both variants' match operation raise rather than answer. -/
theorem c9_outside_root_raises (patterns : List Str) (root path : List Str)
    (d : Bool) (h : ¬ path.take root.length = root) :
    (∃ msg, ctxShouldIgnoreAbs patterns root path d = Except.error msg) ∧
    (∃ msg, cbShouldIgnoreAbs patterns root path = Except.error msg) := by
  constructor
  · exact ⟨_, by rw [ctxShouldIgnoreAbs, relativeTo, if_neg h]⟩
  · exact ⟨_, by rw [cbShouldIgnoreAbs, relativeTo, if_neg h]⟩

/-- Witness for C9 at a concrete outside-root path. -/
theorem c9_witness :
    ¬ ([strL "other"].take ([strL "root"].length) = [strL "root"]) ∧
    (∃ msg, ctxShouldIgnoreAbs [] [strL "root"] [strL "other"] false =
      Except.error msg) ∧
    (∃ msg, cbShouldIgnoreAbs [] [strL "root"] [strL "other"] =
      Except.error msg) :=
  ⟨by decide, c9_outside_root_raises [] [strL "root"] [strL "other"] false (by decide)⟩

/- ## C3 -/

/-- The built-in output glob always produces an ignore decision for a path
    whose base name matches it: directly at top level, through the
    star-star-slash variation below a subdirectory. -/
theorem builtin_decides_ignore (pre : List Str) (name : Str) (relSlash : Str)
    (hname : fnmatchL name builtinOutputGlob = true) :
    patternDecision builtinOutputGlob (joinComps (pre ++ [name])) relSlash =
      some true := by
  have hsb : startsBang builtinOutputGlob = false := rfl
  have hes : endsSlash builtinOutputGlob = false := by decide
  rw [patternDecision_nonneg _ _ _ hsb]
  have hany : ((patternVariations builtinOutputGlob).any fun var =>
      if endsSlash builtinOutputGlob = true then fnmatchL relSlash var
      else fnmatchL (joinComps (pre ++ [name])) var) = true := by
    simp only [patternVariations, List.any_cons, List.any_nil, hes,
      Bool.false_eq_true, if_false, Bool.or_false, Bool.or_eq_true]
    match pre with
    | [] =>
      left
      exact hname
    | p0 :: pre' =>
      right; left
      have hrel : joinComps ((p0 :: pre') ++ [name]) =
          joinComps (p0 :: pre') ++ '/' :: name :=
        joinComps_append_last (p0 :: pre') name (by simp)
      have g2 : globMatch ('/' :: builtinOutputGlob) ('/' :: name) = true := by
        rw [globMatch_slash_cons]
        exact hname
      have g3 : globMatch ('*' :: '/' :: builtinOutputGlob) ('/' :: name) = true := by
        simpa using globMatch_star_absorb ('/' :: builtinOutputGlob) ('/' :: name) [] g2
      have g4 := globMatch_star_absorb ('*' :: '/' :: builtinOutputGlob)
        ('/' :: name) (joinComps (p0 :: pre')) g3
      show globMatch (strL "**/" ++ builtinOutputGlob)
        (joinComps ((p0 :: pre') ++ [name])) = true
      rw [hrel]
      exact g4
  rw [if_pos hany]

/-- C3 is wrong as stated: a user ignore file may contain a negation pattern
    that matches the artifact name, and first-match-wins lets it return keep
    before the appended built-in pattern is consulted. -/
theorem c3_counterexample :
    ctxShouldIgnore (contexroPatterns (some [strL "!contextro_context_a.txt"]))
      (strL "contextro_context_a.txt") false = false := by
  simp [contexroPatterns, loadedPatterns, loadIgnorePatterns, pyStrip, isPySpace,
    builtinOutputGlob, ctxShouldIgnore, ctxIgnoreLoop, patternDecision,
    patternVariations, relSlashOf, startsBang, startsHash, endsSlash,
    fnmatchL, strL, globMatch]

/-- C3 amended: for every user ignore file none of whose negation patterns
    matches the path, every path whose base name matches the generated
    output filename glob is ignored, thanks to the appended built-in
    pattern. -/
theorem c3_builtin_excludes_artifacts (fileLines : Option (List Str))
    (pre : List Str) (name : Str) (d : Bool)
    (hname : fnmatchL name builtinOutputGlob = true)
    (hneg : ∀ q ∈ loadedPatterns fileLines, startsBang q = true →
        fnmatchL (joinComps (pre ++ [name])) (q.drop 1) = false) :
    ctxShouldIgnore (contexroPatterns fileLines)
      (joinComps (pre ++ [name])) d = true := by
  rw [ctxShouldIgnore, contexroPatterns]
  apply ctxIgnoreLoop_no_matching_neg _ _ _ _ hneg
  rw [ctxIgnoreLoop, builtin_decides_ignore pre name _ hname]

/-- Witness for the amended C3: with the user file holding only a non-negated
    unrelated pattern, a stale artifact name below a subdirectory is ignored. -/
theorem c3_witness :
    fnmatchL (strL "contextro_context_old.txt") builtinOutputGlob = true ∧
    ctxShouldIgnore (contexroPatterns (some [strL "*.log"]))
      (joinComps [strL "sub", strL "contextro_context_old.txt"]) false = true :=
  ⟨by simp [fnmatchL, builtinOutputGlob, strL, globMatch],
   c3_builtin_excludes_artifacts (some [strL "*.log"]) [strL "sub"]
    (strL "contextro_context_old.txt") false
    (by simp [fnmatchL, builtinOutputGlob, strL, globMatch])
    (by
      intro q hq hb
      simp only [loadedPatterns, loadIgnorePatterns] at hq
      simp [pyStrip, isPySpace, startsHash, strL] at hq
      subst hq
      simp [startsBang, strL] at hb)⟩

/- ## C8 -/

/-- C8 is wrong as stated: the simpler variant tests directory-only patterns
    against the path with a slash appended unconditionally, so it ignores a
    plain file named foo under the pattern foo-slash, while the richer
    variant appends the slash only for directories and keeps that file. -/
theorem c8_counterexample :
    cbShouldIgnore [strL "foo/"] (strL "foo") = true ∧
    ctxShouldIgnore [strL "foo/"] (strL "foo") false = false := by
  constructor
  · simp [cbShouldIgnore, cbIgnoreLoop, cbPatternDecision, startsBang,
      endsSlash, fnmatchL, strL, globMatch]
  · simp [ctxShouldIgnore, ctxIgnoreLoop, patternDecision, patternVariations,
      relSlashOf, startsBang, endsSlash, fnmatchL, strL, globMatch]

/-- A deciding pattern of the simpler variant decides identically in the
    richer variant when the path is a directory. -/
theorem cb_some_imp_ctx (q relPath : Str) (b : Bool)
    (hb : cbPatternDecision q relPath = some b) :
    patternDecision q relPath (relPath ++ ['/']) = some b := by
  rw [cbPatternDecision] at hb
  cases hq : startsBang q with
  | true =>
    rw [if_pos hq] at hb
    rw [patternDecision_neg q _ _ hq]
    exact hb
  | false =>
    rw [if_neg (by simp [hq])] at hb
    rw [patternDecision_nonneg q _ _ hq]
    have hkey : (if endsSlash q = true then fnmatchL (relPath ++ ['/']) q
        else fnmatchL relPath q) = true ∧ b = true := by
      cases hes : endsSlash q with
      | true =>
        rw [if_pos hes] at hb
        cases hm : fnmatchL (relPath ++ ['/']) q with
        | true =>
          rw [if_pos hm] at hb
          exact ⟨by simp [hes, hm], (Option.some.inj hb).symm⟩
        | false =>
          rw [if_neg (by simp [hm])] at hb
          exact Option.noConfusion hb
      | false =>
        rw [if_neg (by simp [hes])] at hb
        cases hm : fnmatchL relPath q with
        | true =>
          rw [if_pos hm] at hb
          exact ⟨by simp [hes, hm], (Option.some.inj hb).symm⟩
        | false =>
          rw [if_neg (by simp [hm])] at hb
          exact Option.noConfusion hb
    obtain ⟨hk, hbtrue⟩ := hkey
    have hany : ((patternVariations q).any fun var =>
        if endsSlash q = true then fnmatchL (relPath ++ ['/']) var
        else fnmatchL relPath var) = true := by
      simp only [patternVariations, List.any_cons, List.any_nil,
        Bool.or_false, Bool.or_eq_true]
      exact Or.inl hk
    rw [if_pos hany, hbtrue]

/-- C8 amended: for directory paths, an ignore answer of the simpler variant
    is preserved by the richer variant; and on negation patterns the two
    variants' per-pattern decisions coincide exactly (same stripped-pattern
    test). For a file path the inclusion fails, per the counterexample. -/
theorem c8_subset_on_directories :
    (∀ (patterns : List Str) (relPath : Str),
      cbShouldIgnore patterns relPath = true →
      ctxShouldIgnore patterns relPath true = true) ∧
    (∀ (q relPath relSlash : Str), startsBang q = true →
      patternDecision q relPath relSlash = cbPatternDecision q relPath) := by
  constructor
  · intro patterns relPath
    have hrs : relSlashOf relPath true = relPath ++ ['/'] := rfl
    rw [ctxShouldIgnore, cbShouldIgnore, hrs]
    induction patterns with
    | nil =>
      intro h
      simp [cbIgnoreLoop] at h
    | cons q qs ih =>
      intro h
      rw [cbIgnoreLoop] at h
      rw [ctxIgnoreLoop]
      cases hcb : cbPatternDecision q relPath with
      | some b =>
        simp only [hcb] at h
        rw [cb_some_imp_ctx q relPath b hcb]
        exact h
      | none =>
        simp only [hcb] at h
        cases hd : patternDecision q relPath (relPath ++ ['/']) with
        | some b =>
          cases hq : startsBang q with
          | true =>
            rw [patternDecision_neg q _ _ hq] at hd
            rw [cbPatternDecision, if_pos hq] at hcb
            rw [hcb] at hd
            exact Option.noConfusion hd
          | false =>
            exact patternDecision_nonneg_some q relPath _ hq b hd
        | none =>
          exact ih h
  · intro q relPath relSlash hq
    rw [patternDecision_neg q relPath relSlash hq, cbPatternDecision, if_pos hq]

/-- Witness for the amended C8 at a concrete directory path. -/
theorem c8_witness :
    cbShouldIgnore [strL "*.txt"] (strL "docs") = false ∧
    cbShouldIgnore [strL "docs/"] (strL "docs") = true ∧
    ctxShouldIgnore [strL "docs/"] (strL "docs") true = true :=
  ⟨by simp [cbShouldIgnore, cbIgnoreLoop, cbPatternDecision, startsBang,
      endsSlash, fnmatchL, strL, globMatch],
   by simp [cbShouldIgnore, cbIgnoreLoop, cbPatternDecision, startsBang,
      endsSlash, fnmatchL, strL, globMatch],
   c8_subset_on_directories.1 [strL "docs/"] (strL "docs")
    (by simp [cbShouldIgnore, cbIgnoreLoop, cbPatternDecision, startsBang,
      endsSlash, fnmatchL, strL, globMatch])⟩

/- ## C6 -/

/-- C6 is wrong in one detail: for a readable non-binary file whose bytes are
    not valid UTF-8, the delimiter header has already been written when the
    decode failure is caught, so the output is not free of the file's record
    header; the failure is logged and only the contents are missing. -/
theorem c6_counterexample :
    buildEvents (contexroPatterns none) (strL "contextro_context_t.txt")
      [Entry.file (strL "f.bin") true [255]] =
      ([OutEvent.header [strL "f.bin"]],
       [LogEvent.errorProcessing [strL "f.bin"]]) := by
  have h0 : (strL "f.bin" == strL ".contextignore") = false := by decide
  have h1 : ctxShouldIgnore (contexroPatterns none) (strL "f.bin") false = false := by
    simp [contexroPatterns, loadedPatterns, builtinOutputGlob, ctxShouldIgnore,
      ctxIgnoreLoop, patternDecision, patternVariations, relSlashOf, startsBang,
      endsSlash, fnmatchL, strL, globMatch]
  have h2 : isBinary true [255] = false := by decide
  have h3 : decodeText [255] = (none : Option Str) := by decide
  simp [buildEvents, ctxWalk, walkAux, wappend, fileStep, pyEq, joinComps,
    processFile, h0, h1, h2, h3]

/-- C6 amended: a read/decode failure on an individual file is caught; the
    file path is logged, its contents are absent from the output (though the
    delimiter header written before the read remains), and the walk
    continues with the remaining entries exactly as it would have. -/
theorem c6_failure_logged_and_walk_continues :
    (∀ (patterns : List Str) (rel : List Str) (name : Str) (c : List Nat),
      ctxShouldIgnore patterns (joinComps (rel ++ [name])) false = false →
      isBinary true c = false →
      decodeText c = none →
      processFile patterns rel name true c =
        ([OutEvent.header (rel ++ [name])],
         [LogEvent.errorProcessing (rel ++ [name])])) ∧
    (∀ (patterns : List Str) (output : PyVal) (rel : List Str) (name : Str)
       (r : Bool) (c : List Nat) (rest : List Entry),
      walkAux patterns output rel (Entry.file name r c :: rest) =
        (wappend (fileStep patterns output rel name r c)
          (walkAux patterns output rel rest).1,
         (walkAux patterns output rel rest).2)) := by
  constructor
  · intro patterns rel name c hig hbin hdec
    simp [processFile, hig, hbin, hdec]
  · intro patterns output rel name r c rest
    rw [walkAux]

/-- Witness for the amended C6 on a concrete undecodable file. -/
theorem c6_witness :
    processFile [] [] (strL "f.bin") true [255] =
      ([OutEvent.header [strL "f.bin"]],
       [LogEvent.errorProcessing [strL "f.bin"]]) :=
  c6_failure_logged_and_walk_continues.1 [] [] (strL "f.bin") [255]
    (by decide) (by decide) (by decide)

/- ## The walk invariant: every emitted header sits under kept directories -/

/-- Analysis of one file iteration: a header can only be emitted for the
    file itself, after it passed the name filter and the ignore check. -/
theorem fileStep_header (patterns : List Str) (output : PyVal) (rel : List Str)
    (nm : Str) (r : Bool) (c : List Nat) (comps : List Str)
    (h : OutEvent.header comps ∈ (fileStep patterns output rel nm r c).1) :
    comps = rel ++ [nm] ∧ strL ".contextignore" ≠ nm ∧
      ctxShouldIgnore patterns (joinComps (rel ++ [nm])) false = false := by
  rw [fileStep] at h
  split at h
  · simp at h
  · rename_i hcond
    have hnm : (nm == strL ".contextignore") = false := by
      cases hb : (nm == strL ".contextignore") with
      | false => rfl
      | true => simp [hb] at hcond
    have hne : strL ".contextignore" ≠ nm := by
      simp only [beq_eq_false_iff_ne, ne_eq] at hnm
      exact fun he => hnm he.symm
    simp only [processFile] at h
    split at h
    · simp at h
    · rename_i hig
      have hig' : ctxShouldIgnore patterns (joinComps (rel ++ [nm])) false = false := by
        simpa using hig
      split at h
      · simp at h
      · split at h
        · simp only [List.mem_cons, List.mem_singleton] at h
          rcases h with h | h
          · injection h with h2
            exact ⟨h2, hne, hig'⟩
          · exact absurd h (by simp)
        · simp only [List.mem_singleton] at h
          injection h with h2
          exact ⟨h2, hne, hig'⟩

/-- The central traversal invariant: a header emitted anywhere in the walk
    names a file directly below a chain of directories each of which the
    matcher declined to prune, the file itself passed both the literal
    dot-contextignore filter and the ignore check. -/
theorem walkAux_header_inv (patterns : List Str) (output : PyVal) :
    ∀ (n : Nat) (entries : List Entry), sizeOf entries ≤ n →
    ∀ (rel comps : List Str),
    (OutEvent.header comps ∈ (walkAux patterns output rel entries).1.1 ∨
     OutEvent.header comps ∈ (walkAux patterns output rel entries).2.1) →
    (∃ pre name, comps = rel ++ pre ++ [name] ∧ strL ".contextignore" ≠ name ∧
      ctxShouldIgnore patterns (joinComps comps) false = false) ∧
    (∀ k, rel.length < k → k < comps.length →
      ctxShouldIgnore patterns (joinComps (comps.take k)) true = false) := by
  intro n
  induction n using Nat.strong_induction_on with
  | _ n ih =>
    intro entries hsz rel comps hmem
    cases entries with
    | nil =>
      simp [walkAux] at hmem
    | cons e rest =>
      cases e with
      | file nm r c =>
        have hszr : sizeOf rest < n := by
          have hlt : sizeOf rest < sizeOf (Entry.file nm r c :: rest) := by
            simp
          omega
        simp only [walkAux, wappend] at hmem
        rcases hmem with hmem | hmem
        · rw [List.mem_append] at hmem
          rcases hmem with hf | hr
          · obtain ⟨hceq, hne, hig⟩ := fileStep_header patterns output rel nm r c comps hf
            constructor
            · exact ⟨[], nm, by simpa using hceq, hne, by rw [hceq]; exact hig⟩
            · intro k hk1 hk2
              rw [hceq] at hk2
              simp at hk2
              omega
          · exact ih (sizeOf rest) hszr rest le_rfl rel comps (Or.inl hr)
        · exact ih (sizeOf rest) hszr rest le_rfl rel comps (Or.inr hmem)
      | dir nm ch =>
        have hszr : sizeOf rest < n := by
          have hlt : sizeOf rest < sizeOf (Entry.dir nm ch :: rest) := by
            simp
          omega
        have hszc : sizeOf ch < n := by
          have hlt : sizeOf ch < sizeOf (Entry.dir nm ch :: rest) := by
            simp
            omega
          omega
        simp only [walkAux] at hmem
        by_cases hig : ctxShouldIgnore patterns (joinComps (rel ++ [nm])) true = true
        · rw [if_pos hig] at hmem
          exact ih (sizeOf rest) hszr rest le_rfl rel comps hmem
        · rw [if_neg hig] at hmem
          have higf : ctxShouldIgnore patterns (joinComps (rel ++ [nm])) true = false := by
            simpa using hig
          rcases hmem with hmem | hmem
          · exact ih (sizeOf rest) hszr rest le_rfl rel comps (Or.inl hmem)
          · simp only [wappend] at hmem
            rw [List.mem_append, List.mem_append] at hmem
            have child : (OutEvent.header comps ∈
                  (walkAux patterns output (rel ++ [nm]) ch).1.1 ∨
                OutEvent.header comps ∈
                  (walkAux patterns output (rel ++ [nm]) ch).2.1) →
                (∃ pre name, comps = rel ++ pre ++ [name] ∧
                  strL ".contextignore" ≠ name ∧
                  ctxShouldIgnore patterns (joinComps comps) false = false) ∧
                (∀ k, rel.length < k → k < comps.length →
                  ctxShouldIgnore patterns (joinComps (comps.take k)) true = false) := by
              intro hq
              obtain ⟨⟨pre', name', hceq, hne, hig0⟩, hk⟩ :=
                ih (sizeOf ch) hszc ch le_rfl (rel ++ [nm]) comps hq
              constructor
              · refine ⟨nm :: pre', name', ?_, hne, hig0⟩
                rw [hceq]
                simp
              · intro k hk1 hk2
                by_cases hkk : k = rel.length + 1
                · subst hkk
                  have hlen : rel.length + 1 = (rel ++ [nm]).length := by simp
                  have htake : comps.take (rel.length + 1) = rel ++ [nm] := by
                    rw [hceq, hlen, List.append_assoc (rel ++ [nm]) pre' [name']]
                    exact List.take_left _ _
                  rw [htake]
                  exact higf
                · have hgt : (rel ++ [nm]).length < k := by
                    simp
                    omega
                  exact hk k hgt hk2
            rcases hmem with (hq | hq) | hp
            · exact child (Or.inl hq)
            · exact child (Or.inr hq)
            · exact ih (sizeOf rest) hszr rest le_rfl rel comps (Or.inr hp)

/-- The invariant at the top of the walk, for the full traversal result. -/
theorem ctxWalk_header_inv (patterns : List Str) (output : PyVal)
    (entries : List Entry) (comps : List Str)
    (h : OutEvent.header comps ∈ (ctxWalk patterns output [] entries).1) :
    (∃ pre name, comps = pre ++ [name] ∧ strL ".contextignore" ≠ name ∧
      ctxShouldIgnore patterns (joinComps comps) false = false) ∧
    (∀ k, 0 < k → k < comps.length →
      ctxShouldIgnore patterns (joinComps (comps.take k)) true = false) := by
  rw [ctxWalk] at h
  simp only [wappend] at h
  rw [List.mem_append] at h
  have hh := walkAux_header_inv patterns output (sizeOf entries) entries le_rfl [] comps h
  obtain ⟨⟨pre, name, hceq, hne, hig⟩, hk⟩ := hh
  exact ⟨⟨pre, name, by simpa using hceq, hne, hig⟩, fun k hk1 hk2 => hk k (by simpa using hk1) hk2⟩

/- ## C4 -/

/-- C4 is wrong as stated: with an earlier negation pattern matching the
    directory, first-match-wins returns keep before the directory-only
    pattern is reached, so a directory named foo is not ignored. -/
theorem c4_counterexample :
    ctxShouldIgnore (contexroPatterns (some [strL "!foo", strL "foo/"]))
      (strL "foo") true = false := by
  simp [contexroPatterns, loadedPatterns, loadIgnorePatterns, pyStrip, isPySpace,
    builtinOutputGlob, ctxShouldIgnore, ctxIgnoreLoop, patternDecision,
    patternVariations, relSlashOf, startsBang, startsHash, endsSlash,
    fnmatchL, strL, globMatch]

/-- A directory-only pattern whose stem matches the directory's base name
    produces an ignore decision, directly at top level or through the
    star-star-slash variation below a subdirectory. -/
theorem dirPattern_decides_ignore (ps1 : List Str) (stem : Str) (ps2 : List Str)
    (pre : List Str) (base : Str)
    (hsb : startsBang (stem ++ ['/']) = false)
    (hmatch : fnmatchL (base ++ ['/']) (stem ++ ['/']) = true)
    (hsilent : ∀ q ∈ ps1, patternDecision q (joinComps (pre ++ [base]))
        (joinComps (pre ++ [base]) ++ ['/']) = none) :
    ctxShouldIgnore (ps1 ++ (stem ++ ['/']) :: ps2)
      (joinComps (pre ++ [base])) true = true := by
  have hslash : relSlashOf (joinComps (pre ++ [base])) true =
      joinComps (pre ++ [base]) ++ ['/'] := rfl
  rw [ctxShouldIgnore, hslash,
    ctxIgnoreLoop_append_silent _ _ ps1 _ hsilent, ctxIgnoreLoop]
  have hes : endsSlash (stem ++ ['/']) = true := by
    simp [endsSlash]
  have hvar : fnmatchL (joinComps (pre ++ [base]) ++ ['/']) (stem ++ ['/']) = true ∨
      fnmatchL (joinComps (pre ++ [base]) ++ ['/'])
        (strL "**/" ++ (stem ++ ['/'])) = true := by
    cases pre with
    | nil =>
      left
      exact hmatch
    | cons p0 pre' =>
      right
      have g1 : globMatch (stem ++ ['/']) (base ++ ['/']) = true := hmatch
      have g2 : globMatch ('/' :: (stem ++ ['/'])) ('/' :: (base ++ ['/'])) = true := by
        rw [globMatch_slash_cons]
        exact g1
      have g3 : globMatch ('*' :: '/' :: (stem ++ ['/']))
          ('/' :: (base ++ ['/'])) = true := by
        simpa using globMatch_star_absorb ('/' :: (stem ++ ['/']))
          ('/' :: (base ++ ['/'])) [] g2
      have g4 := globMatch_star_absorb ('*' :: '/' :: (stem ++ ['/']))
        ('/' :: (base ++ ['/'])) (joinComps (p0 :: pre')) g3
      show globMatch (strL "**/" ++ (stem ++ ['/']))
        (joinComps ((p0 :: pre') ++ [base]) ++ ['/']) = true
      rw [joinComps_append_last (p0 :: pre') base (by simp), List.append_assoc,
        List.cons_append]
      exact g4
  have hd : patternDecision (stem ++ ['/']) (joinComps (pre ++ [base]))
      (joinComps (pre ++ [base]) ++ ['/']) = some true := by
    rw [patternDecision_nonneg _ _ _ hsb]
    have hany : ((patternVariations (stem ++ ['/'])).any fun var =>
        if endsSlash (stem ++ ['/']) = true
        then fnmatchL (joinComps (pre ++ [base]) ++ ['/']) var
        else fnmatchL (joinComps (pre ++ [base])) var) = true := by
      rcases hvar with hv | hv
      · simp [patternVariations, hes, hv]
      · simp [patternVariations, hes, hv]
    rw [if_pos hany]
  rw [hd]

/-- C4 amended: a directory-only pattern stem-slash ignores every directory
    whose base name matches the stem, provided no earlier pattern in the
    file already decides that directory (an earlier matching negation
    overrides it, per the counterexample); and because pruning happens
    before descending, no header for any path strictly below such a
    directory is ever written to the output. -/
theorem c4_dir_pattern_prunes :
    (∀ (ps1 : List Str) (stem : Str) (ps2 : List Str) (pre : List Str) (base : Str),
      startsBang (stem ++ ['/']) = false →
      fnmatchL (base ++ ['/']) (stem ++ ['/']) = true →
      (∀ q ∈ ps1, patternDecision q (joinComps (pre ++ [base]))
          (joinComps (pre ++ [base]) ++ ['/']) = none) →
      ctxShouldIgnore (ps1 ++ (stem ++ ['/']) :: ps2)
        (joinComps (pre ++ [base])) true = true) ∧
    (∀ (ps1 : List Str) (stem : Str) (ps2 : List Str) (output : PyVal)
       (entries : List Entry) (comps : List Str) (k : Nat)
       (pre : List Str) (base : Str),
      startsBang (stem ++ ['/']) = false →
      fnmatchL (base ++ ['/']) (stem ++ ['/']) = true →
      comps.take k = pre ++ [base] →
      0 < k → k < comps.length →
      (∀ q ∈ ps1, patternDecision q (joinComps (pre ++ [base]))
          (joinComps (pre ++ [base]) ++ ['/']) = none) →
      OutEvent.header comps ∉
        (ctxWalk (ps1 ++ (stem ++ ['/']) :: ps2) output [] entries).1) := by
  constructor
  · exact dirPattern_decides_ignore
  · intro ps1 stem ps2 output entries comps k pre base hsb hmatch htake hk1 hk2 hsilent hmem
    obtain ⟨_, hks⟩ := ctxWalk_header_inv _ output entries comps hmem
    have hfalse := hks k hk1 hk2
    rw [htake] at hfalse
    have htrue := dirPattern_decides_ignore ps1 stem ps2 pre base hsb hmatch hsilent
    rw [htrue] at hfalse
    exact Bool.noConfusion hfalse

/-- Witness for the amended C4: the pattern foo-slash alone ignores the
    top-level directory foo. -/
theorem c4_witness :
    ctxShouldIgnore [strL "foo/"] (strL "foo") true = true :=
  c4_dir_pattern_prunes.1 [] (strL "foo") [] [] (strL "foo")
    (by decide)
    (by simp [fnmatchL, strL, globMatch])
    (by simp)

/- ## C10 -/

/-- C10 is wrong as stated: the files filter compares against the literal
    string dot-contextignore, not the configured ignore-file name, so a run
    with the flag overridden to custom-dot-ignore emits a record for the
    ignore file itself. -/
theorem c10_counterexample :
    contexroRun (strL "custom.ignore") (strL "20240101_000000")
      [Entry.file (strL "custom.ignore") true []] =
      Except.ok ([OutEvent.header [strL "custom.ignore"],
                  OutEvent.content []], []) := by
  have h0 : (strL "custom.ignore" == strL ".contextignore") = false := by decide
  have hfind : findTopFile [Entry.file (strL "custom.ignore") true []]
      (strL "custom.ignore") = some (true, []) := by
    simp [findTopFile]
  have hdec : decodeText [] = some ([] : Str) := by decide
  have hpat : contexroPatterns (some (splitNl [])) = [builtinOutputGlob] := by
    simp [contexroPatterns, loadedPatterns, splitNl, loadIgnorePatterns, pyStrip]
  have h1 : ctxShouldIgnore [builtinOutputGlob] (strL "custom.ignore") false = false := by
    simp [builtinOutputGlob, ctxShouldIgnore, ctxIgnoreLoop, patternDecision,
      patternVariations, relSlashOf, startsBang, endsSlash, fnmatchL, strL,
      globMatch]
  have h2 : isBinary true [] = false := by decide
  rw [contexroRun]
  simp [hfind, hdec, hpat, buildEvents, ctxWalk, walkAux, wappend, fileStep,
    pyEq, joinComps, processFile, h0, h1, h2]

/-- C10 amended: what the filter really excludes is the literal name
    dot-contextignore, at every directory level and for every run, including
    runs with an overridden ignore-file name; no emitted record names such a
    file. An overridden ignore file is not excluded by this filter. -/
theorem c10_literal_name_excluded :
    ∀ (ignoreName stamp : Str) (entries : List Entry) (w : WalkOut)
      (comps : List Str),
    contexroRun ignoreName stamp entries = Except.ok w →
    OutEvent.header comps ∈ w.1 →
    ∃ pre name, comps = pre ++ [name] ∧ strL ".contextignore" ≠ name := by
  intro ignoreName stamp entries w comps hrun hmem
  rw [contexroRun] at hrun
  split at hrun
  · injection hrun with hw
    subst hw
    rw [buildEvents] at hmem
    obtain ⟨⟨pre, name, hceq, hne, _⟩, _⟩ := ctxWalk_header_inv _ _ entries comps hmem
    exact ⟨pre, name, hceq, hne⟩
  · split at hrun
    · split at hrun
      · injection hrun with hw
        subst hw
        rw [buildEvents] at hmem
        obtain ⟨⟨pre, name, hceq, hne, _⟩, _⟩ :=
          ctxWalk_header_inv _ _ entries comps hmem
        exact ⟨pre, name, hceq, hne⟩
      · exact absurd hrun (by simp)
    · exact absurd hrun (by simp)

/-- Witness for the amended C10: a run over a single ordinary file, with a
    custom ignore-file name configured, emits only that file's header, whose
    base name is not dot-contextignore. -/
theorem c10_witness :
    ∃ pre name, ([strL "a.txt"] : List Str) = pre ++ [name] ∧
      strL ".contextignore" ≠ name := by
  have h0 : (strL "a.txt" == strL ".contextignore") = false := by decide
  have hfind : findTopFile [Entry.file (strL "a.txt") true []]
      (strL "nope.ignore") = none := by
    simp [findTopFile, strL]
  have hdec : decodeText [] = some ([] : Str) := by decide
  have hpat : contexroPatterns none = [builtinOutputGlob] := by
    simp [contexroPatterns, loadedPatterns]
  have h1 : ctxShouldIgnore [builtinOutputGlob] (strL "a.txt") false = false := by
    simp [builtinOutputGlob, ctxShouldIgnore, ctxIgnoreLoop, patternDecision,
      patternVariations, relSlashOf, startsBang, endsSlash, fnmatchL, strL,
      globMatch]
  have h2 : isBinary true [] = false := by decide
  have hrun : contexroRun (strL "nope.ignore") (strL "s")
      [Entry.file (strL "a.txt") true []] =
      Except.ok ([OutEvent.header [strL "a.txt"], OutEvent.content []], []) := by
    rw [contexroRun]
    simp [hfind, hdec, hpat, buildEvents, ctxWalk, walkAux, wappend, fileStep,
      pyEq, joinComps, processFile, h0, h1, h2]
  exact c10_literal_name_excluded (strL "nope.ignore") (strL "s")
    [Entry.file (strL "a.txt") true []]
    ([OutEvent.header [strL "a.txt"], OutEvent.content []], [])
    [strL "a.txt"] hrun (by simp)
